import Mathlib

/-!
Verification of the ResearchPipeline repository against its natural-language
specification.  The Python components under scrutiny are embedded shallowly as
Lean functions; machine-level details that the claims do not depend on (the
LLM calls, numpy random draws, hashing primitives) are taken as explicit
function parameters of the embeddings, so every definition below mirrors the
control flow and data flow of one source function.
-/

set_option maxRecDepth 10000

namespace TextCleaner

/-- Model of the Python regex class `\w`: alphanumeric characters and the
underscore. -/
def isWordChar (c : Char) : Bool :=
  c.isAlphanum || c = '_'

/-- The punctuation kept by `clean_text`: `. , ! ? ; :`. -/
def isKeptPunct (c : Char) : Bool :=
  c = '.' || c = ',' || c = '!' || c = '?' || c = ';' || c = ':'

/-- Helper for the first substitution in `clean_text`
(`re.sub(r"\s+", " ", text)`): every maximal run of whitespace becomes one
space.  The boolean argument records whether the previous character was
whitespace. -/
def collapseWsAux : Bool → List Char → List Char
  | _, [] => []
  | prevWs, c :: rest =>
    if c.isWhitespace then
      if prevWs then collapseWsAux true rest
      else ' ' :: collapseWsAux true rest
    else c :: collapseWsAux false rest

/-- `re.sub(r"\s+", " ", text)`. -/
def collapseWs (l : List Char) : List Char :=
  collapseWsAux false l

/-- The second substitution in `clean_text`
(`re.sub(r"[^\w\s\.\,\!\?\;\:]", " ", text)`): each character outside the
allowed class is replaced by a single space. -/
def replaceSpecial (l : List Char) : List Char :=
  l.map fun c => if isWordChar c || c.isWhitespace || isKeptPunct c then c else ' '

/-- Python `str.strip()`: remove leading and trailing whitespace. -/
def pyStrip (l : List Char) : List Char :=
  (((l.dropWhile Char.isWhitespace).reverse.dropWhile Char.isWhitespace)).reverse

/-- `TextCleaner.clean_text` on the character list of the input string,
mirroring `app/pipeline/cleaners.py`: empty guard, whitespace collapsing,
special-character replacement, strip. -/
def clean_textL (l : List Char) : List Char :=
  if l = [] then []
  else pyStrip (replaceSpecial (collapseWs l))

/-- `TextCleaner.clean_text` on strings. -/
def clean_text (s : String) : String :=
  String.mk (clean_textL s.data)

/-- True when the list has no two adjacent whitespace characters. -/
def noDoubleWs : List Char → Bool
  | [] => true
  | [_] => true
  | a :: b :: rest => !(a.isWhitespace && b.isWhitespace) && noDoubleWs (b :: rest)

/-- True when neither the first nor the last character is whitespace. -/
def noWsEnds (l : List Char) : Bool :=
  (match l.head? with
   | none => true
   | some c => !c.isWhitespace) &&
  (match l.getLast? with
   | none => true
   | some c => !c.isWhitespace)

/-- Helper for `pySplit`: scan the characters, accumulating the current
word in reverse; whitespace finishes a word, empty pieces are dropped. -/
def pySplitAux : List Char → List Char → List String
  | acc, [] => if acc = [] then [] else [String.mk acc.reverse]
  | acc, c :: rest =>
    if c.isWhitespace then
      if acc = [] then pySplitAux [] rest
      else String.mk acc.reverse :: pySplitAux [] rest
    else pySplitAux (c :: acc) rest

/-- Python `str.split()` with no arguments: split on whitespace runs and
discard empty pieces. -/
def pySplit (s : String) : List String :=
  pySplitAux [] s.data

/-- One chunk record produced by `chunk_text`: the joined words of the
window `words[i : i + 1000]` together with its metadata. -/
structure Chunk where
  text : String
  start_index : Nat
  end_index : Nat
  word_count : Nat
  character_count : Nat
  deriving Repr, DecidableEq

/-- The chunk built at loop index `i` in `chunk_text`
(`chunk_size = 1000`). -/
def mkChunk (words : List String) (i : Nat) : Chunk :=
  let chunkWords := (words.drop i).take 1000
  let t := " ".intercalate chunkWords
  { text := t
    start_index := i
    end_index := min (i + 1000) words.length
    word_count := chunkWords.length
    character_count := t.length }

/-- The loop of `chunk_text`: `for i in range(0, len(words), 800)` with the
final `break` once `i + 1000 >= len(words)`
(step = `chunk_size - chunk_overlap` = 800). -/
def chunkFrom (words : List String) (i : Nat) : List Chunk :=
  if words.length ≤ i + 1000 then [mkChunk words i]
  else mkChunk words i :: chunkFrom words (i + 800)
termination_by words.length - i
decreasing_by simp_wf; omega

/-- `TextCleaner.chunk_text` on an already split word list: empty word lists
produce no chunks (the Python loop body never runs), otherwise the loop
starts at index 0. -/
def chunk_textW (words : List String) : List Chunk :=
  if words.length = 0 then [] else chunkFrom words 0

/-- `TextCleaner.chunk_text` on the raw input string, including the
empty-input guard and the whitespace split. -/
def chunk_text (s : String) : List Chunk :=
  if s = "" then [] else chunk_textW (pySplit s)

end TextCleaner

namespace Composer

/-- One retrieved web document as consumed by the composer: the fields
`compose_response` reads through `doc.get`. -/
structure WebDoc where
  title : String
  content : String
  summary : String
  deriving Repr, DecidableEq

/-- One source entry as consumed by `_format_sources`. -/
structure SourceEntry where
  title : String
  url : String
  deriving Repr, DecidableEq

/-- The `web_results` dictionary as read by the composer: `documents`,
`sources` and `total_results` (with `.get` default 0). -/
structure WebResults where
  documents : List WebDoc
  sources : List SourceEntry
  total_results : Int
  deriving Repr, DecidableEq

/-- The `graph_data` dictionary as read by the composer. -/
structure GraphData where
  entities : List String
  deriving Repr, DecidableEq

/-- `ResponseComposer._calculate_confidence` from
`app/pipeline/composer.py`: base 0.5, document and entity bonuses added only
when the respective lists are non-empty, a 0.2 bonus when
`total_results > 0`, then `min(score, 1.0)`.  Scores are modelled as exact
rationals. -/
def calculate_confidence (web : WebResults) (graph : GraphData) : ℚ :=
  let score : ℚ := 1/2
  let score := if web.documents ≠ [] then
    score + (1/5) * (min web.documents.length 3 : ℚ) / 3 else score
  let score := if graph.entities ≠ [] then
    score + (1/10) * (min graph.entities.length 10 : ℚ) / 10 else score
  let score := if web.total_results > 0 then score + 1/5 else score
  min score 1

/-- `ResponseComposer._format_sources`: `"[i] title - url"` with 1-based
enumeration. -/
def format_sources (sources : List SourceEntry) : List String :=
  (List.range sources.length).zip sources |>.map fun p =>
    "[" ++ toString (p.1 + 1) ++ "] " ++ p.2.title ++ " - " ++ p.2.url

/-- The record returned by `compose_response` on its success path. -/
structure ComposeResult where
  answer : String
  sources : List String
  confidence : ℚ
  method : String
  deriving Repr, DecidableEq

/-- `ResponseComposer.compose_response`, success path.  The answer text is
produced by `_call_llm` or `_compose_fallback_response`; both only build a
string from their inputs, so they are passed in as the `synthesize`
parameter, with `hasClient` mirroring the `self.openai_client` check that
selects between them and fixes the `method` field. -/
def compose_response (hasClient : Bool) (synthesize : Bool → String → WebResults → GraphData → String)
    (query : String) (web : WebResults) (graph : GraphData) : ComposeResult :=
  { answer := synthesize hasClient query web graph
    sources := format_sources web.sources
    confidence := calculate_confidence web graph
    method := if hasClient then "llm_synthesis" else "template_based" }

end Composer

namespace GraphBuilder

/-- One relationship dictionary built by `_extract_relationships`: subject,
predicate and object strings.  Python deduplicates these via
`set(tuple(r.items()))`, which coincides with equality of this record. -/
structure Rel where
  subject : String
  predicate : String
  object : String
  deriving Repr, DecidableEq

/-- The value returned by `build_graph`. -/
structure GraphResult where
  entities : List String
  relationships : List Rel
  total_entities : Nat
  total_relationships : Nat
  deriving Repr, DecidableEq

/-- `GraphBuilder.build_graph` from `app/pipeline/graph_builder.py`.  The
per-document extraction helpers `_extract_entities` and
`_extract_relationships` (regex scans) are taken as parameters `extractE`
and `extractR`; `build_graph` accumulates their outputs over all documents,
deduplicates (Python builds a set and lists it; `List.dedup` realizes one
order of that unordered set), caps each list at 50, and reports the
pre-cap distinct counts as `graph_stats`. -/
def build_graph (extractE : String → List String)
    (extractR : String → List String → List Rel)
    (documents : List String) : GraphResult :=
  let entities := (documents.map fun doc => extractE doc).flatten
  let relationships := (documents.map fun doc => extractR doc (extractE doc)).flatten
  let uniqueEntities := entities.dedup
  let uniqueRelationships := relationships.dedup
  { entities := uniqueEntities.take 50
    relationships := uniqueRelationships.take 50
    total_entities := uniqueEntities.length
    total_relationships := uniqueRelationships.length }

end GraphBuilder

namespace Orchestrator

/-- The `vector_results` dictionary produced by the vector store as consumed
by `run_pipeline`. -/
structure VectorResults where
  similar_docs : List String
  scores : List ℚ
  deriving Repr, DecidableEq

/-- The dictionary returned by `ResearchOrchestrator.run_pipeline`. -/
structure PipelinePayload where
  answer : String
  sources : List String
  entities : List String
  confidence : ℚ
  processing_steps : List String
  deriving Repr, DecidableEq

/-- The pipeline components called inside the `try` block of
`run_pipeline`, each as a fallible operation: a Python exception is an
`Except.error` carrying `str(e)`. -/
structure PipelineEnv where
  cleanText : String → Except String String
  webSearch : String → Except String Composer.WebResults
  buildGraph : List String → Except String GraphBuilder.GraphResult
  indexDocuments : List String → String → Except String VectorResults
  composeResponse : String → Composer.WebResults → GraphBuilder.GraphResult →
    VectorResults → Except String Composer.ComposeResult

/-- The body of the `try` block of `ResearchOrchestrator.run_pipeline` from
`app/pipeline/orchestrator.py`: clean the query, search the web, on
non-empty documents clean them, build the graph and index them (else use the
empty fallbacks), compose, and assemble the success payload with the top 10
entities and the fixed five processing steps. -/
def runPipelineBody (env : PipelineEnv) (query : String) :
    Except String PipelinePayload := do
  let cleanedQuery ← env.cleanText query
  let webResults ← env.webSearch cleanedQuery
  let (graphData, vectorResults) ←
    if webResults.documents ≠ [] then do
      let cleanedDocs ← webResults.documents.mapM
        fun doc => env.cleanText doc.content
      let graphData ← env.buildGraph cleanedDocs
      let vectorResults ← env.indexDocuments cleanedDocs cleanedQuery
      pure (graphData, vectorResults)
    else
      pure ({ entities := [], relationships := [], total_entities := 0,
              total_relationships := 0 },
            { similar_docs := [], scores := [] })
  let finalResponse ← env.composeResponse cleanedQuery webResults graphData
    vectorResults
  pure
    { answer := finalResponse.answer
      sources := finalResponse.sources
      entities := graphData.entities.take 10
      confidence := finalResponse.confidence
      processing_steps :=
        ["Query cleaning and preprocessing",
         "Web search and content retrieval",
         "Knowledge graph construction",
         "Vector similarity analysis",
         "Response synthesis with citations"] }

/-- `ResearchOrchestrator.run_pipeline`: the `try` body with its
`except Exception` handler, which converts any raised exception into the
zero-confidence error payload. -/
def run_pipeline (env : PipelineEnv) (query : String) : PipelinePayload :=
  match runPipelineBody env query with
  | .ok payload => payload
  | .error e =>
    { answer := "Error processing query: " ++ e
      sources := []
      entities := []
      confidence := 0
      processing_steps := ["Error occurred during processing"] }

end Orchestrator

namespace VectorStore

/-- A 384-dimensional embedding vector, over exact rationals. -/
def Emb : Type := Fin 384 → ℚ

/-- Squared L2 distance, the metric of the `IndexFlatL2` FAISS index. -/
def sqDist (a b : Emb) : ℚ :=
  ∑ i : Fin 384, (a i - b i) ^ 2

/-- `VectorStore._create_simple_embedding` from
`app/pipeline/vector_store.py`: seed a generator with
`abs(hash(text.lower())) % 2**32`, draw a 384-dimensional vector, and divide
by its norm when the norm is positive.  The numeric primitives outside the
source (`hash`, the seeded `randn` draw, the computed norm value) are the
parameters `pyHash`, `randn` and `norm`. -/
def create_simple_embedding (pyHash : String → Int) (randn : Nat → Emb)
    (norm : Emb → ℚ) (text : String) : Emb :=
  let seed := (pyHash text.toLower).natAbs % 2 ^ 32
  let embedding := randn seed
  let n := norm embedding
  if n > 0 then fun i => embedding i / n else embedding

/-- The mutable state of a `VectorStore`: the indexed documents and their
stored embedding vectors (the FAISS index content). -/
structure VState where
  documents : List String
  embeddings : List Emb

/-- The dictionary returned by `index_documents` / `_search_similar`. -/
structure SearchResult where
  similar_docs : List String
  scores : List ℚ
  total_indexed : Nat

/-- `VectorStore._search_similar`: search the FAISS index for the
`min(k, ntotal)` stored vectors nearest to the query embedding in squared L2
distance, sorted by increasing distance, and map the hit indices back to
documents (guarding `idx < len(self.documents)`). -/
def search_similar (st : VState) (queryEmbedding : Emb) (k : Nat) : SearchResult :=
  if st.embeddings.length = 0 then
    { similar_docs := [], scores := [], total_indexed := 0 }
  else
    let pairs := (List.range st.embeddings.length).zip
      (st.embeddings.map fun e => sqDist queryEmbedding e)
    let sorted := pairs.insertionSort fun p q => p.2 ≤ q.2
    let hits := sorted.take (min k st.embeddings.length)
    { similar_docs := (hits.filter fun p => p.1 < st.documents.length).map
        fun p => st.documents.getD p.1 ""
      scores := hits.map fun p => p.2
      total_indexed := st.embeddings.length }

/-- `VectorStore.index_documents`: embed each document, extend the index and
document list, and when a non-empty query is supplied run `_search_similar`
with `k = 5`; with no embeddings or an empty query, return the fallback
result (first three documents with the fixed scores 0.8, 0.7, 0.6). -/
def index_documents (pyHash : String → Int) (randn : Nat → Emb)
    (norm : Emb → ℚ) (st : VState) (documents : List String) (query : String) :
    VState × SearchResult :=
  let docEmbeddings := documents.map (create_simple_embedding pyHash randn norm)
  if docEmbeddings.length ≠ 0 then
    let st1 : VState := { documents := st.documents ++ documents,
                          embeddings := st.embeddings ++ docEmbeddings }
    if query ≠ "" then
      (st1, search_similar st1 (create_simple_embedding pyHash randn norm query) 5)
    else
      (st1, { similar_docs := documents.take 3, scores := [4/5, 7/10, 3/5],
              total_indexed := documents.length })
  else
    (st, { similar_docs := documents.take 3, scores := [4/5, 7/10, 3/5],
           total_indexed := documents.length })

end VectorStore

namespace Cache

/-- The state of the three cache tiers of `app/utils/cache.py`: the remote
Redis store (serialized value and TTL), the in-process map (value and
expiry), and the file cache (value and expiry, keyed by the hashed key). -/
structure CacheState (α : Type) where
  redisStore : List (String × String × Nat)
  localCache : List (String × α × Nat)
  fileStore : List (String × α × Nat)
  deriving Repr, DecidableEq

/-- The environment of one `Cache.set` call: the cache-enabled setting, the
Redis connection (`none` when no client is connected, `some ok` when a
client exists and `ok` says whether its `set` succeeds), whether the file
write succeeds, the MD5 hex digest primitive, JSON serialization, the
current clock reading and the default TTL from settings. -/
structure CacheCfg (α : Type) where
  enabled : Bool
  redisClient : Option Bool
  fileWriteOk : Bool
  md5 : String → String
  serialize : α → String
  now : Nat
  defaultTtl : Nat

/-- `Cache._generate_key`: `"prefix:key"` when a non-empty prefix is given
(Python tests the prefix for truthiness). -/
def generate_key (key : String) (pfx : Option String) : String :=
  match pfx with
  | some p => if p ≠ "" then p ++ ":" ++ key else key
  | none => key

/-- `Cache.set` from `app/utils/cache.py`: no-op when caching is disabled;
otherwise compute the full key and expiry (`ttl or self.ttl`, so a zero
override also falls back), try Redis first and return immediately on a
successful Redis write, and only on Redis absence or failure fall through to
writing the in-process map and the file tier. -/
def set (cfg : CacheCfg α) (st : CacheState α) (key : String)
    (value : α) (pfx : Option String) (ttlArg : Option Nat) :
    Bool × CacheState α :=
  if cfg.enabled = false then (false, st)
  else
    let fullKey := generate_key key pfx
    let ttl := match ttlArg with
      | some t => if t ≠ 0 then t else cfg.defaultTtl
      | none => cfg.defaultTtl
    let expires := cfg.now + ttl
    match cfg.redisClient with
    | some true =>
      (true, { st with redisStore := (fullKey, cfg.serialize value, ttl) :: st.redisStore })
    | _ =>
      let st1 := { st with localCache := (fullKey, value, expires) :: st.localCache }
      if cfg.fileWriteOk then
        (true, { st1 with fileStore := (cfg.md5 fullKey, value, expires) :: st1.fileStore })
      else (false, st1)

end Cache

namespace StatsUtil

/-- The `percentage_change` computation of `StatsUtil.trend_analysis` from
`app/tools/stats_util.py`: the length guard, the assignment guarded by
`values[0] != 0`, and the reported field
`float(pct_change) if pct_change else None`, whose truthiness test also
maps a zero change to `None`. -/
def trend_analysis_percentage_change (values : List ℚ) : Except String (Option ℚ) :=
  if values.length < 2 then .error "Need at least 2 data points"
  else
    let first := values.headI
    let lastValue := values.getLastD 0
    let pct : Option ℚ := if first ≠ 0 then some ((lastValue - first) / first * 100)
      else none
    .ok (match pct with
         | some x => if x ≠ 0 then some x else none
         | none => none)

end StatsUtil

namespace TaskPlanner

/-- A `Task` as consumed by `TaskPlanner._create_execution_groups` in
`app/orchestrator/enhanced_orchestrator.py`: only the id and the dependency
id set take part in the grouping. -/
structure TaskE where
  id : String
  dependencies : Finset String
  deriving DecidableEq

/-- One step of the `for task in tasks` scan inside the while loop: a task
whose id is not yet executed and whose dependency set is empty or contained
in the executed set is appended to the current group and its id is added to
`executed` immediately (the set is mutated inside the scan). -/
def passStep (acc : List String × Finset String) (t : TaskE) :
    List String × Finset String :=
  if t.id ∉ acc.2 ∧ (t.dependencies = ∅ ∨ t.dependencies ⊆ acc.2) then
    (acc.1 ++ [t.id], insert t.id acc.2)
  else acc

/-- One iteration of the while loop of `_create_execution_groups`: the group
collected by the inner scan together with the updated executed set. -/
def onePass (tasks : List TaskE) (executed : Finset String) :
    List String × Finset String :=
  tasks.foldl passStep ([], executed)

/-- The executed set after `n` iterations of the while loop. -/
def executedAfter (tasks : List TaskE) : Nat → Finset String
  | 0 => ∅
  | n + 1 => (onePass tasks (executedAfter tasks n)).2

/-- The while loop of `_create_execution_groups`
(`while len(executed) < len(tasks)`), with explicit fuel since the Python
loop need not terminate; a non-empty group is appended, an empty one is
dropped and the loop continues. -/
def create_execution_groups_fuel :
    Nat → List TaskE → Finset String → List (List String)
  | 0, _, _ => []
  | fuel + 1, tasks, executed =>
    if executed.card < tasks.length then
      let p := onePass tasks executed
      if p.1 ≠ [] then p.1 :: create_execution_groups_fuel fuel tasks p.2
      else create_execution_groups_fuel fuel tasks p.2
    else []

/-- `TaskPlanner._create_execution_groups` run with enough fuel for every
terminating execution (each appended group consumes at least one task id,
so a terminating run uses at most `tasks.length + 1` guard checks). -/
def create_execution_groups (tasks : List TaskE) : List (List String) :=
  create_execution_groups_fuel (tasks.length + 1) tasks ∅

/-- `TaskPlanner._identify_parallel_groups`: map each id group back to tasks
through `task_map = (t.id: t for t in tasks)`; in a Python dict
comprehension the last task with a given id wins, hence the reversed
search. -/
def identify_parallel_groups (tasks : List TaskE) : List (List TaskE) :=
  (create_execution_groups tasks).map fun group =>
    group.filterMap fun tid => tasks.reverse.find? fun t => t.id = tid

/-- The five-task dependency example from the specification:
`A:[], B:[], C:[A], D:[B], E:[C,D]`, in that list order. -/
def exTasks : List TaskE :=
  [⟨"A", ∅⟩, ⟨"B", ∅⟩, ⟨"C", {"A"}⟩, ⟨"D", {"B"}⟩, ⟨"E", {"C", "D"}⟩]

/-- Two dependency-free tasks sharing one id: an acyclic, dependency-closed
input on which the grouping loop of the planner cannot make progress. -/
def dupTasks : List TaskE :=
  [⟨"A", ∅⟩, ⟨"A", ∅⟩]

/-- A single dependency-free task, satisfying every planner precondition. -/
def oneTask : List TaskE :=
  [⟨"A", ∅⟩]

/-- The dependency edge relation of a task list: `depRel tasks a b` holds
when `a` appears in the dependency set of a task whose id is `b`. -/
def depRel (tasks : List TaskE) (a b : String) : Prop :=
  ∃ t ∈ tasks, t.id = b ∧ a ∈ t.dependencies

/-- All task ids of the list, as a finite set. -/
def allIds (tasks : List TaskE) : Finset String :=
  (tasks.map TaskE.id).toFinset

/-- The task ids are pairwise distinct. -/
def DistinctIds (tasks : List TaskE) : Prop :=
  (tasks.map TaskE.id).Nodup

/-- Every dependency refers to an id of some task in the list. -/
def ClosedDeps (tasks : List TaskE) : Prop :=
  ∀ t ∈ tasks, ∀ d ∈ t.dependencies, d ∈ allIds tasks

/-- The dependency graph has no cycle: no id reaches itself through a
non-empty chain of dependency edges. -/
def Acyclic (tasks : List TaskE) : Prop :=
  ∀ a, ¬ Relation.TransGen (depRel tasks) a a

end TaskPlanner

namespace Orchestrator

/-- A concrete pipeline environment whose web search raises: used to
exercise the error path of `run_pipeline`. -/
def failingEnv : PipelineEnv :=
  { cleanText := fun s => .ok s
    webSearch := fun _ => .error "boom"
    buildGraph := fun _ => .ok { entities := [], relationships := [],
                                 total_entities := 0, total_relationships := 0 }
    indexDocuments := fun _ _ => .ok { similar_docs := [], scores := [] }
    composeResponse := fun _ _ _ _ => .ok { answer := "", sources := [],
                                            confidence := 0, method := "" } }

end Orchestrator

namespace Cache

/-- A concrete call environment with a connected, succeeding Redis client
and caching enabled. -/
def redisOkCfg : CacheCfg Nat :=
  { enabled := true
    redisClient := some true
    fileWriteOk := true
    md5 := fun s => s
    serialize := fun n => toString n
    now := 0
    defaultTtl := 3600 }

/-- A concrete call environment with no Redis client. -/
def noRedisCfg : CacheCfg Nat :=
  { redisOkCfg with redisClient := none }

/-- The empty three-tier cache state. -/
def emptyState : CacheState Nat :=
  { redisStore := [], localCache := [], fileStore := [] }

end Cache

theorem chunkFrom_unfold_base (ws : List String) (i : Nat)
    (h : ws.length ≤ i + 1000) :
    TextCleaner.chunkFrom ws i = [TextCleaner.mkChunk ws i] := by
  rw [TextCleaner.chunkFrom, if_pos h]

theorem chunkFrom_unfold_step (ws : List String) (i : Nat)
    (h : ¬ ws.length ≤ i + 1000) :
    TextCleaner.chunkFrom ws i =
      TextCleaner.mkChunk ws i :: TextCleaner.chunkFrom ws (i + 800) := by
  rw [TextCleaner.chunkFrom, if_neg h]

theorem chunkFrom_rec (ws : List String) (P : Nat → Prop)
    (base : ∀ i, ws.length ≤ i + 1000 → P i)
    (step : ∀ i, ¬ ws.length ≤ i + 1000 → P (i + 800) → P i) :
    ∀ i, P i := by
  have key : ∀ m i, ws.length ≤ i + 800 * m + 1000 → P i := by
    intro m
    induction m with
    | zero => intro i hm; exact base i (by omega)
    | succ m ih =>
      intro i hm
      by_cases h : ws.length ≤ i + 1000
      · exact base i h
      · exact step i h (ih (i + 800) (by omega))
  intro i
  exact key ws.length i (by omega)

theorem chunkFrom_ne_nil (ws : List String) (i : Nat) :
    TextCleaner.chunkFrom ws i ≠ [] := by
  by_cases h : ws.length ≤ i + 1000
  · rw [chunkFrom_unfold_base ws i h]
    simp
  · rw [chunkFrom_unfold_step ws i h]
    simp

theorem chunkFrom_getElem (ws : List String) :
    ∀ i, ∀ k (hk : k < (TextCleaner.chunkFrom ws i).length),
      (TextCleaner.chunkFrom ws i).get ⟨k, hk⟩ =
        TextCleaner.mkChunk ws (i + 800 * k) := by
  refine chunkFrom_rec ws _ ?_ ?_
  · intro i h k hk
    have he := chunkFrom_unfold_base ws i h
    have hk1 : k < 1 := by
      have h2 := hk
      rw [he] at h2
      simpa using h2
    interval_cases k
    simp [he]
  · intro i h ih k hk
    have he := chunkFrom_unfold_step ws i h
    match k with
    | 0 => simp [he]
    | k + 1 =>
      have hk2 : k < (TextCleaner.chunkFrom ws (i + 800)).length := by
        have h2 := hk
        rw [he] at h2
        simpa using h2
      have h3 := ih k hk2
      calc (TextCleaner.chunkFrom ws i).get ⟨k + 1, hk⟩
          = (TextCleaner.chunkFrom ws (i + 800)).get ⟨k, hk2⟩ := by
            simp [he]
        _ = TextCleaner.mkChunk ws (i + 800 + 800 * k) := h3
        _ = TextCleaner.mkChunk ws (i + 800 * (k + 1)) := by ring_nf

theorem chunkFrom_cover (ws : List String) :
    ∀ i, ∀ j, i ≤ j → j < ws.length →
      ∃ c ∈ TextCleaner.chunkFrom ws i, c.start_index ≤ j ∧ j < c.end_index := by
  refine chunkFrom_rec ws _ ?_ ?_
  · intro i h j hij hj
    refine ⟨TextCleaner.mkChunk ws i, ?_, ?_, ?_⟩
    · rw [chunkFrom_unfold_base ws i h]
      exact List.mem_singleton_self _
    · simpa [TextCleaner.mkChunk] using hij
    · simp only [TextCleaner.mkChunk]
      omega
  · intro i h ih j hij hj
    by_cases hj2 : j < i + 1000
    · refine ⟨TextCleaner.mkChunk ws i, ?_, ?_, ?_⟩
      · rw [chunkFrom_unfold_step ws i h]
        exact List.mem_cons_self _ _
      · simpa [TextCleaner.mkChunk] using hij
      · simp only [TextCleaner.mkChunk]
        omega
    · obtain ⟨c, hc, h1, h2⟩ := ih j (by omega) hj
      refine ⟨c, ?_, h1, h2⟩
      rw [chunkFrom_unfold_step ws i h]
      exact List.mem_cons_of_mem _ hc

theorem chunkFrom_getLast (ws : List String) :
    ∀ i, ((TextCleaner.chunkFrom ws i).getLast?).map TextCleaner.Chunk.end_index =
      some ws.length := by
  refine chunkFrom_rec ws _ ?_ ?_
  · intro i h
    rw [chunkFrom_unfold_base ws i h]
    simp [TextCleaner.mkChunk]
    omega
  · intro i h ih
    rw [chunkFrom_unfold_step ws i h]
    obtain ⟨x, xs, he⟩ := List.exists_cons_of_ne_nil (chunkFrom_ne_nil ws (i + 800))
    rw [he, List.getLast?_cons_cons]
    rw [he] at ih
    exact ih

/-- Claim C4: `chunk_text` walks the whitespace-split word list with step
800 in windows of at most 1000 words whose k-th window starts at word 800k
and ends at `min(800k + 1000, n)`; the windows cover the word sequence
without gaps, the final window ends at the total word count, the empty
input yields no chunks, and an 1800-word input yields exactly the windows
starting at 0 and 800, the second ending at 1800. -/
theorem chunk_text_chunking (s : String) :
    (∀ k (hk : k < (TextCleaner.chunk_text s).length),
      ((TextCleaner.chunk_text s).get ⟨k, hk⟩).start_index = 800 * k ∧
      ((TextCleaner.chunk_text s).get ⟨k, hk⟩).end_index =
        min (800 * k + 1000) (TextCleaner.pySplit s).length ∧
      ((TextCleaner.chunk_text s).get ⟨k, hk⟩).word_count ≤ 1000) ∧
    (∀ j, j < (TextCleaner.pySplit s).length → ∃ c ∈ TextCleaner.chunk_text s,
      c.start_index ≤ j ∧ j < c.end_index) ∧
    ((TextCleaner.pySplit s).length ≠ 0 → TextCleaner.chunk_text s ≠ [] ∧
      ((TextCleaner.chunk_text s).getLast?).map TextCleaner.Chunk.end_index =
        some (TextCleaner.pySplit s).length) ∧
    (s = "" → TextCleaner.chunk_text s = []) ∧
    (∀ words : List String, words.length = 1800 →
      (TextCleaner.chunk_textW words).map TextCleaner.Chunk.start_index = [0, 800] ∧
      (TextCleaner.chunk_textW words).map TextCleaner.Chunk.end_index = [1000, 1800]) := by
  have h1800 : ∀ words : List String, words.length = 1800 →
      (TextCleaner.chunk_textW words).map TextCleaner.Chunk.start_index = [0, 800] ∧
      (TextCleaner.chunk_textW words).map TextCleaner.Chunk.end_index = [1000, 1800] := by
    intro words hw
    have he0 : TextCleaner.chunk_textW words = TextCleaner.chunkFrom words 0 := by
      rw [TextCleaner.chunk_textW, if_neg (by omega)]
    have he1 : TextCleaner.chunkFrom words 0 =
        TextCleaner.mkChunk words 0 :: TextCleaner.chunkFrom words 800 := by
      rw [chunkFrom_unfold_step words 0 (by omega)]
    have he2 : TextCleaner.chunkFrom words 800 = [TextCleaner.mkChunk words 800] := by
      rw [chunkFrom_unfold_base words 800 (by omega)]
    rw [he0, he1, he2]
    constructor
    · simp [TextCleaner.mkChunk]
    · simp [TextCleaner.mkChunk]
      omega
  by_cases hs : s = ""
  · subst hs
    have hempty : TextCleaner.pySplit "" = [] := rfl
    refine ⟨?_, ?_, ?_, fun _ => rfl, h1800⟩
    · intro k hk
      simp [TextCleaner.chunk_text] at hk
    · intro j hj
      rw [hempty] at hj
      simp at hj
    · intro hn
      rw [hempty] at hn
      simp at hn
  · have hct : TextCleaner.chunk_text s = TextCleaner.chunk_textW (TextCleaner.pySplit s) := by
      rw [TextCleaner.chunk_text, if_neg hs]
    by_cases hn : (TextCleaner.pySplit s).length = 0
    · have hw : TextCleaner.chunk_text s = [] := by
        rw [hct, TextCleaner.chunk_textW, if_pos hn]
      refine ⟨?_, ?_, fun h => absurd hn h, fun _ => hw, h1800⟩
      · intro k hk
        rw [hw] at hk
        simp at hk
      · intro j hj
        omega
    · have hw : TextCleaner.chunk_text s = TextCleaner.chunkFrom (TextCleaner.pySplit s) 0 := by
        rw [hct, TextCleaner.chunk_textW, if_neg hn]
      refine ⟨?_, ?_, fun _ => ⟨hw ▸ chunkFrom_ne_nil _ 0, hw ▸ chunkFrom_getLast _ 0⟩,
        fun h => absurd h hs, h1800⟩
      · intro k hk
        have hk2 : k < (TextCleaner.chunkFrom (TextCleaner.pySplit s) 0).length := by
          rw [← hw]; exact hk
        have hg : (TextCleaner.chunk_text s).get ⟨k, hk⟩ =
            (TextCleaner.chunkFrom (TextCleaner.pySplit s) 0).get ⟨k, hk2⟩ :=
          List.get_of_eq hw ⟨k, hk⟩
        rw [hg, chunkFrom_getElem (TextCleaner.pySplit s) 0 k hk2]
        refine ⟨by simp [TextCleaner.mkChunk], by simp [TextCleaner.mkChunk], ?_⟩
        simp only [TextCleaner.mkChunk]
        exact le_trans (List.length_take_le _ _) (by norm_num)
      · intro j hj
        obtain ⟨c, hc, h1, h2⟩ := chunkFrom_cover (TextCleaner.pySplit s) 0 j (Nat.zero_le j) hj
        exact ⟨c, hw ▸ hc, h1, h2⟩

/-- Witness for claim C4: the theorem applied to the three-word input
"a b c", to the empty input, and to a 1800-fold replicated word list. -/
theorem chunk_text_chunking_witness :
    (TextCleaner.chunk_text "" = []) ∧
    (TextCleaner.chunk_text "a b c" ≠ [] ∧
      ((TextCleaner.chunk_text "a b c").getLast?).map TextCleaner.Chunk.end_index =
        some 3) ∧
    (∃ c ∈ TextCleaner.chunk_text "a b c", c.start_index ≤ 1 ∧ 1 < c.end_index) ∧
    ((TextCleaner.chunk_textW (List.replicate 1800 "w")).map
        TextCleaner.Chunk.start_index = [0, 800]) := by
  have h3 : (TextCleaner.pySplit "a b c").length = 3 := by decide
  refine ⟨(chunk_text_chunking "").2.2.2.1 rfl, ?_, ?_, ?_⟩
  · have h := (chunk_text_chunking "a b c").2.2.1 (by rw [h3]; omega)
    exact ⟨h.1, by rw [h.2, h3]⟩
  · exact (chunk_text_chunking "a b c").2.1 1 (by omega)
  · exact ((chunk_text_chunking "x").2.2.2.2 (List.replicate 1800 "w")
      (by simp)).1

/-- Claim C2: `run_pipeline` never raises to its caller, and whenever one of
its internal steps raises, the returned payload has confidence 0, empty
sources and entities, and the single processing step
"Error occurred during processing". -/
theorem run_pipeline_error_containment (env : Orchestrator.PipelineEnv)
    (query e : String)
    (h : Orchestrator.runPipelineBody env query = .error e) :
    (Orchestrator.run_pipeline env query).confidence = 0 ∧
    (Orchestrator.run_pipeline env query).sources = [] ∧
    (Orchestrator.run_pipeline env query).entities = [] ∧
    (Orchestrator.run_pipeline env query).processing_steps =
      ["Error occurred during processing"] := by
  unfold Orchestrator.run_pipeline
  rw [h]
  exact ⟨rfl, rfl, rfl, rfl⟩

/-- Witness for claim C2: an environment whose web search raises "boom"
exercises the error payload on a concrete query. -/
theorem run_pipeline_error_containment_witness :
    (Orchestrator.run_pipeline Orchestrator.failingEnv "q").confidence = 0 ∧
    (Orchestrator.run_pipeline Orchestrator.failingEnv "q").sources = [] ∧
    (Orchestrator.run_pipeline Orchestrator.failingEnv "q").entities = [] ∧
    (Orchestrator.run_pipeline Orchestrator.failingEnv "q").processing_steps =
      ["Error occurred during processing"] :=
  run_pipeline_error_containment Orchestrator.failingEnv "q" "boom" rfl

/-- Claim C9: indexing one non-empty document into a fresh vector store and
querying with the same text returns that document as the only match, with
the reported distance equal to the squared L2 distance of the embedding to
itself, which is 0 (the lowest possible report), because the hash-seeded
embedding maps equal lower-cased texts to identical vectors. -/
theorem vector_store_self_query (pyHash : String → Int) (randn : Nat → VectorStore.Emb)
    (norm : VectorStore.Emb → ℚ) (d : String) (hd : d ≠ "") :
    (VectorStore.index_documents pyHash randn norm ⟨[], []⟩ [d] d).2.similar_docs = [d] ∧
    (VectorStore.index_documents pyHash randn norm ⟨[], []⟩ [d] d).2.scores =
      [VectorStore.sqDist
        (VectorStore.create_simple_embedding pyHash randn norm d)
        (VectorStore.create_simple_embedding pyHash randn norm d)] ∧
    VectorStore.sqDist
      (VectorStore.create_simple_embedding pyHash randn norm d)
      (VectorStore.create_simple_embedding pyHash randn norm d) = 0 ∧
    (∀ t u : String, t.toLower = u.toLower →
      VectorStore.create_simple_embedding pyHash randn norm t =
        VectorStore.create_simple_embedding pyHash randn norm u) := by
  have hsq : VectorStore.sqDist
      (VectorStore.create_simple_embedding pyHash randn norm d)
      (VectorStore.create_simple_embedding pyHash randn norm d) = 0 := by
    unfold VectorStore.sqDist
    simp
  refine ⟨?_, ?_, hsq, ?_⟩
  · simp [VectorStore.index_documents, VectorStore.search_similar, hd,
      List.insertionSort, List.orderedInsert]
  · simp [VectorStore.index_documents, VectorStore.search_similar, hd,
      List.insertionSort, List.orderedInsert]
  · intro t u h
    unfold VectorStore.create_simple_embedding
    rw [h]

/-- Witness for claim C9: a concrete hash, generator, norm and document. -/
theorem vector_store_self_query_witness :
    ("doc" : String) ≠ "" ∧
    (VectorStore.index_documents (fun _ => 0) (fun _ _ => 1) (fun _ => 2)
      ⟨[], []⟩ ["doc"] "doc").2.similar_docs = ["doc"] :=
  ⟨by decide,
   (vector_store_self_query (fun _ => 0) (fun _ _ => 1) (fun _ => 2) "doc"
      (by decide)).1⟩

/-- Counterexample to claim C3: with caching enabled and a connected,
succeeding Redis client, `Cache.set` returns after the Redis write, so the
in-process map and the file tier stay untouched, contrary to the claim that
every tier is written. -/
theorem cache_set_counterexample :
    Cache.redisOkCfg.enabled = true ∧
    Cache.redisOkCfg.redisClient = some true ∧
    (Cache.set Cache.redisOkCfg Cache.emptyState "k" 7 none none).2.localCache = [] ∧
    (Cache.set Cache.redisOkCfg Cache.emptyState "k" 7 none none).2.fileStore = [] ∧
    (Cache.set Cache.redisOkCfg Cache.emptyState "k" 7 none none).2.redisStore =
      [("k", "7", 3600)] :=
  ⟨rfl, rfl, rfl, rfl, rfl⟩

/-- Claim C3 as amended: while caching is enabled, `Cache.set` writes the
value to exactly one level of the tier fallback chain — to the remote store
alone when a connected client accepts the write, and otherwise to the
in-process map entry (value with expiry) plus, when the file write succeeds,
the file entry keyed by the hash of the full key. -/
theorem cache_set_tier_behaviour {α : Type} (cfg : Cache.CacheCfg α)
    (st : Cache.CacheState α) (key : String) (v : α) (pfx : Option String)
    (ttlArg : Option Nat) (hEn : cfg.enabled = true) :
    (cfg.redisClient = some true →
      (Cache.set cfg st key v pfx ttlArg).1 = true ∧
      (Cache.set cfg st key v pfx ttlArg).2.redisStore =
        (Cache.generate_key key pfx, cfg.serialize v,
          (match ttlArg with
           | some t => if t ≠ 0 then t else cfg.defaultTtl
           | none => cfg.defaultTtl)) :: st.redisStore ∧
      (Cache.set cfg st key v pfx ttlArg).2.localCache = st.localCache ∧
      (Cache.set cfg st key v pfx ttlArg).2.fileStore = st.fileStore) ∧
    (cfg.redisClient ≠ some true →
      (Cache.set cfg st key v pfx ttlArg).2.redisStore = st.redisStore ∧
      (Cache.set cfg st key v pfx ttlArg).2.localCache =
        (Cache.generate_key key pfx, v,
          cfg.now + (match ttlArg with
           | some t => if t ≠ 0 then t else cfg.defaultTtl
           | none => cfg.defaultTtl)) :: st.localCache ∧
      (cfg.fileWriteOk = true →
        (Cache.set cfg st key v pfx ttlArg).1 = true ∧
        (Cache.set cfg st key v pfx ttlArg).2.fileStore =
          (cfg.md5 (Cache.generate_key key pfx), v,
            cfg.now + (match ttlArg with
             | some t => if t ≠ 0 then t else cfg.defaultTtl
             | none => cfg.defaultTtl)) :: st.fileStore) ∧
      (cfg.fileWriteOk = false →
        (Cache.set cfg st key v pfx ttlArg).1 = false ∧
        (Cache.set cfg st key v pfx ttlArg).2.fileStore = st.fileStore)) := by
  unfold Cache.set
  rw [hEn]
  simp only [Bool.true_eq_false, if_false]
  constructor
  · intro hR
    rw [hR]
    simp
  · intro hR
    refine ⟨?_, ?_, fun hF => ?_, fun hF => ?_⟩ <;>
    · rcases hC : cfg.redisClient with _ | b
      · cases hW : cfg.fileWriteOk <;> simp_all
      · cases b
        · cases hW : cfg.fileWriteOk <;> simp_all
        · exact absurd hC hR

/-- Witness for the amended claim C3: concrete calls with a succeeding
Redis client and with no client. -/
theorem cache_set_tier_behaviour_witness :
    ((Cache.set Cache.redisOkCfg Cache.emptyState "k" 7 none none).1 = true ∧
      (Cache.set Cache.redisOkCfg Cache.emptyState "k" 7 none none).2.redisStore =
        [("k", "7", 3600)] ∧
      (Cache.set Cache.redisOkCfg Cache.emptyState "k" 7 none none).2.localCache = [] ∧
      (Cache.set Cache.redisOkCfg Cache.emptyState "k" 7 none none).2.fileStore = []) ∧
    ((Cache.set Cache.noRedisCfg Cache.emptyState "k" 7 none none).2.redisStore = [] ∧
      (Cache.set Cache.noRedisCfg Cache.emptyState "k" 7 none none).2.localCache =
        [("k", 7, 3600)]) :=
  ⟨(cache_set_tier_behaviour Cache.redisOkCfg Cache.emptyState "k" 7 none none rfl).1 rfl,
    ((cache_set_tier_behaviour Cache.noRedisCfg Cache.emptyState "k" 7 none none rfl).2
      (by simp [Cache.noRedisCfg, Cache.redisOkCfg])).1,
    ((cache_set_tier_behaviour Cache.noRedisCfg Cache.emptyState "k" 7 none none rfl).2
      (by simp [Cache.noRedisCfg, Cache.redisOkCfg])).2.1⟩

/-- Claim C6: the confidence of `compose_response` equals the base 0.5 plus
0.2 times `min(docs,3)/3` plus 0.1 times `min(entities,10)/10` plus 0.2 when
`total_results` is positive, clamped at 1, and it always lies between 0
and 1 — also on empty documents, entities and sources. -/
theorem compose_response_confidence (hasClient : Bool)
    (synthesize : Bool → String → Composer.WebResults → Composer.GraphData → String)
    (query : String) (web : Composer.WebResults) (graph : Composer.GraphData) :
    (Composer.compose_response hasClient synthesize query web graph).confidence =
      min (1/2 + (1/5) * (min web.documents.length 3 : ℚ) / 3
        + (1/10) * (min graph.entities.length 10 : ℚ) / 10
        + (if web.total_results > 0 then 1/5 else 0)) 1 ∧
    0 ≤ (Composer.compose_response hasClient synthesize query web graph).confidence ∧
    (Composer.compose_response hasClient synthesize query web graph).confidence ≤ 1 := by
  have hconf : (Composer.compose_response hasClient synthesize query web graph).confidence
      = Composer.calculate_confidence web graph := rfl
  have hd0 : (0:ℚ) ≤ (min web.documents.length 3 : ℚ) := by positivity
  have he0 : (0:ℚ) ≤ (min graph.entities.length 10 : ℚ) := by positivity
  have heq : Composer.calculate_confidence web graph =
      min (1/2 + (1/5) * (min web.documents.length 3 : ℚ) / 3
        + (1/10) * (min graph.entities.length 10 : ℚ) / 10
        + (if web.total_results > 0 then 1/5 else 0)) 1 := by
    unfold Composer.calculate_confidence
    rcases hD : web.documents with _ | ⟨d, ds⟩ <;>
      rcases hE : graph.entities with _ | ⟨x, xs⟩ <;>
      · simp only [hD, hE]
        split_ifs <;> simp_all
  refine ⟨by rw [hconf, heq], ?_, ?_⟩
  · rw [hconf, heq]
    have h1 : (0:ℚ) ≤ 1/2 + (1/5) * (min web.documents.length 3 : ℚ) / 3
        + (1/10) * (min graph.entities.length 10 : ℚ) / 10
        + (if web.total_results > 0 then 1/5 else 0) := by
      have : (0:ℚ) ≤ (if web.total_results > 0 then (1/5:ℚ) else 0) := by
        split_ifs <;> norm_num
      nlinarith
    exact le_min h1 (by norm_num)
  · rw [hconf, heq]
    exact min_le_right _ _

/-- Claim C7, evaluated at the failing input: for values `[5, 5]` the first
value is non-zero and the percentage change the claim demands is 0, yet
`trend_analysis` reports `None`, because the reported field tests the
computed change for truthiness and 0.0 is falsy. -/
theorem trend_analysis_zero_change_dropped :
    StatsUtil.trend_analysis_percentage_change [5, 5] = .ok none ∧
    (5:ℚ) ≠ 0 ∧ (((5:ℚ) - 5) / 5) * 100 = 0 :=
  ⟨by unfold StatsUtil.trend_analysis_percentage_change; norm_num,
   by norm_num, by norm_num⟩

/-- Claim C8: `build_graph` deduplicates the accumulated entity and
relationship lists before capping them at 50, and `graph_stats` reports the
pre-cap distinct counts. -/
theorem build_graph_dedup_before_cap (extractE : String → List String)
    (extractR : String → List String → List GraphBuilder.Rel)
    (documents : List String) :
    (GraphBuilder.build_graph extractE extractR documents).entities.Nodup ∧
    (GraphBuilder.build_graph extractE extractR documents).relationships.Nodup ∧
    (GraphBuilder.build_graph extractE extractR documents).entities.length ≤ 50 ∧
    (GraphBuilder.build_graph extractE extractR documents).relationships.length ≤ 50 ∧
    (GraphBuilder.build_graph extractE extractR documents).entities =
      ((documents.map fun doc => extractE doc).flatten).dedup.take 50 ∧
    (GraphBuilder.build_graph extractE extractR documents).relationships =
      ((documents.map fun doc => extractR doc (extractE doc)).flatten).dedup.take 50 ∧
    (GraphBuilder.build_graph extractE extractR documents).total_entities =
      ((documents.map fun doc => extractE doc).flatten).dedup.length ∧
    (GraphBuilder.build_graph extractE extractR documents).total_relationships =
      ((documents.map fun doc => extractR doc (extractE doc)).flatten).dedup.length := by
  refine ⟨?_, ?_, ?_, ?_, rfl, rfl, rfl, rfl⟩
  · exact ((List.take_sublist _ _).nodup (List.nodup_dedup _))
  · exact ((List.take_sublist _ _).nodup (List.nodup_dedup _))
  · show (((documents.map fun doc => extractE doc).flatten).dedup.take 50).length ≤ 50
    exact List.length_take_le 50 _
  · show (((documents.map fun doc =>
      extractR doc (extractE doc)).flatten).dedup.take 50).length ≤ 50
    exact List.length_take_le 50 _
namespace TextCleaner

theorem collapseWsAux_ws_eq_space :
    ∀ (l : List Char) (b : Bool) (c : Char), c ∈ collapseWsAux b l →
      c.isWhitespace = true → c = ' ' := by
  intro l
  induction l with
  | nil => intro b c hc; simp [collapseWsAux] at hc
  | cons c0 rest ih =>
    intro b c hc hw
    rw [collapseWsAux] at hc
    by_cases h0 : c0.isWhitespace
    · rw [if_pos h0] at hc
      cases b with
      | true => exact ih true c (by simpa using hc) hw
      | false =>
        rw [if_neg (by simp)] at hc
        rcases List.mem_cons.mp hc with h | h
        · exact h
        · exact ih true c h hw
    · rw [if_neg h0] at hc
      rcases List.mem_cons.mp hc with h | h
      · subst h; exact absurd hw (by simpa using h0)
      · exact ih false c h hw

theorem collapseWsAux_mem :
    ∀ (l : List Char) (b : Bool) (c : Char), c ∈ collapseWsAux b l →
      c = ' ' ∨ c ∈ l := by
  intro l
  induction l with
  | nil => intro b c hc; simp [collapseWsAux] at hc
  | cons c0 rest ih =>
    intro b c hc
    rw [collapseWsAux] at hc
    by_cases h0 : c0.isWhitespace
    · rw [if_pos h0] at hc
      cases b with
      | true =>
        rcases ih true c (by simpa using hc) with h | h
        · exact Or.inl h
        · exact Or.inr (List.mem_cons_of_mem _ h)
      | false =>
        rw [if_neg (by simp)] at hc
        rcases List.mem_cons.mp hc with h | h
        · exact Or.inl h
        · rcases ih true c h with h2 | h2
          · exact Or.inl h2
          · exact Or.inr (List.mem_cons_of_mem _ h2)
    · rw [if_neg h0] at hc
      rcases List.mem_cons.mp hc with h | h
      · exact Or.inr (h ▸ List.mem_cons_self _ _)
      · rcases ih false c h with h2 | h2
        · exact Or.inl h2
        · exact Or.inr (List.mem_cons_of_mem _ h2)

theorem collapseWsAux_true_head :
    ∀ (l : List Char) (c : Char) (rest : List Char),
      collapseWsAux true l = c :: rest → c.isWhitespace = false := by
  intro l
  induction l with
  | nil => intro c rest h; simp [collapseWsAux] at h
  | cons c0 t ih =>
    intro c rest h
    rw [collapseWsAux] at h
    by_cases h0 : c0.isWhitespace
    · rw [if_pos h0, if_pos rfl] at h
      exact ih c rest h
    · rw [if_neg h0] at h
      rw [List.cons.injEq] at h
      rw [← h.1]
      simpa using h0

theorem noDoubleWs_tail (a : Char) (t : List Char)
    (h : noDoubleWs (a :: t) = true) : noDoubleWs t = true := by
  cases t with
  | nil => rfl
  | cons b r =>
    rw [noDoubleWs] at h
    simp only [Bool.and_eq_true] at h
    exact h.2

theorem noDoubleWs_collapseWsAux :
    ∀ (l : List Char) (b : Bool), noDoubleWs (collapseWsAux b l) = true := by
  intro l
  induction l with
  | nil => intro b; rfl
  | cons c0 t ih =>
    intro b
    rw [collapseWsAux]
    by_cases h0 : c0.isWhitespace
    · rw [if_pos h0]
      cases b with
      | true => exact ih true
      | false =>
        rw [if_neg (by simp)]
        rcases hX : collapseWsAux true t with _ | ⟨c1, r⟩
        · rfl
        · rw [noDoubleWs]
          have hc1 : c1.isWhitespace = false := collapseWsAux_true_head t c1 r hX
          rw [hc1]
          have := ih true
          rw [hX] at this
          simp [this]
    · rw [if_neg h0]
      rcases hX : collapseWsAux false t with _ | ⟨c1, r⟩
      · rfl
      · rw [noDoubleWs]
        have := ih false
        rw [hX] at this
        have h0f : c0.isWhitespace = false := by simpa using h0
        simp [h0f, this]

end TextCleaner
namespace TextCleaner

theorem replaceSpecial_allowed (l : List Char) :
    ∀ c ∈ replaceSpecial (collapseWs l),
      isWordChar c = true ∨ c = ' ' ∨ isKeptPunct c = true := by
  intro c hc
  obtain ⟨c0, hc0, rfl⟩ := List.mem_map.mp hc
  by_cases h : isWordChar c0 || c0.isWhitespace || isKeptPunct c0
  · rw [if_pos h]
    rcases Bool.or_eq_true_iff.mp h with h2 | h2
    · rcases Bool.or_eq_true_iff.mp h2 with h3 | h3
      · exact Or.inl h3
      · exact Or.inr (Or.inl (collapseWsAux_ws_eq_space l false c0 hc0 h3))
    · exact Or.inr (Or.inr h2)
  · rw [if_neg h]
    exact Or.inr (Or.inl rfl)

theorem replaceSpecial_id_of_allowed (l : List Char)
    (hall : ∀ c ∈ l, isWordChar c = true ∨ c.isWhitespace = true ∨ isKeptPunct c = true) :
    replaceSpecial (collapseWs l) = collapseWs l := by
  unfold replaceSpecial
  have : ∀ c ∈ collapseWs l,
      (if isWordChar c || c.isWhitespace || isKeptPunct c then c else ' ') = c := by
    intro c hc
    rcases collapseWsAux_mem l false c hc with h | h
    · subst h
      simp
    · rcases hall c h with h2 | h2 | h2 <;> simp [h2]
  rw [List.map_congr_left this]
  exact List.map_id _

theorem pyStrip_prefix_of_dropWhile (l : List Char) :
    pyStrip l <+: l.dropWhile Char.isWhitespace := by
  unfold pyStrip
  obtain ⟨t, ht⟩ := List.dropWhile_suffix (l := (l.dropWhile Char.isWhitespace).reverse)
    Char.isWhitespace
  refine ⟨t.reverse, ?_⟩
  have := congrArg List.reverse ht
  rw [List.reverse_append, List.reverse_reverse] at this
  exact this

theorem pyStrip_infix (l : List Char) : pyStrip l <:+: l :=
  (pyStrip_prefix_of_dropWhile l).isInfix.trans
    (List.dropWhile_suffix Char.isWhitespace).isInfix

theorem noDoubleWs_append_right (a b : List Char)
    (h : noDoubleWs (a ++ b) = true) : noDoubleWs b = true := by
  induction a with
  | nil => exact h
  | cons x a ih => exact ih (noDoubleWs_tail x (a ++ b) h)

theorem noDoubleWs_append_left (a b : List Char) :
    noDoubleWs (a ++ b) = true → noDoubleWs a = true := by
  induction a with
  | nil => intro _; rfl
  | cons x a ih =>
    intro h
    cases a with
    | nil => rfl
    | cons y r =>
      rw [List.cons_append, List.cons_append, noDoubleWs] at h
      simp only [Bool.and_eq_true] at h
      rw [noDoubleWs]
      simp only [Bool.and_eq_true]
      refine ⟨h.1, ?_⟩
      exact ih h.2

theorem noDoubleWs_infix (a l : List Char) (hinf : a <:+: l)
    (h : noDoubleWs l = true) : noDoubleWs a = true := by
  obtain ⟨s, t, hst⟩ := hinf
  subst hst
  exact noDoubleWs_append_left a t (noDoubleWs_append_right s (a ++ t)
    (by rwa [← List.append_assoc]))

theorem pyStrip_getLast_not_ws (l : List Char) (c : Char)
    (h : (pyStrip l).getLast? = some c) : c.isWhitespace = false := by
  unfold pyStrip at h
  rw [List.getLast?_reverse] at h
  have h2 := List.head?_dropWhile_not Char.isWhitespace
    ((l.dropWhile Char.isWhitespace).reverse)
  rw [h] at h2
  exact h2

theorem pyStrip_head_not_ws (l : List Char) (c : Char)
    (h : (pyStrip l).head? = some c) : c.isWhitespace = false := by
  unfold pyStrip at h
  rw [List.head?_reverse] at h
  have hz : (l.dropWhile Char.isWhitespace).reverse.dropWhile Char.isWhitespace ≠ [] := by
    intro he
    rw [he] at h
    simp at h
  obtain ⟨t, ht⟩ := List.dropWhile_suffix
    (l := (l.dropWhile Char.isWhitespace).reverse) Char.isWhitespace
  have h2 : (t ++ (l.dropWhile Char.isWhitespace).reverse.dropWhile
      Char.isWhitespace).getLast? = some c := by
    rw [List.getLast?_append_of_ne_nil t hz]
    exact h
  rw [ht, List.getLast?_reverse] at h2
  have h3 := List.head?_dropWhile_not Char.isWhitespace l
  rw [h2] at h3
  exact h3

theorem pyStrip_noWsEnds (l : List Char) : noWsEnds (pyStrip l) = true := by
  unfold noWsEnds
  rcases hh : (pyStrip l).head? with _ | c <;>
    rcases hg : (pyStrip l).getLast? with _ | d <;>
    simp_all [pyStrip_head_not_ws l, pyStrip_getLast_not_ws l]

end TextCleaner
/-- Counterexample to claim C5: on input "a@@b" the two replaced special
characters leave two adjacent spaces in the output of `clean_text`, since
whitespace collapsing happens before special characters are replaced by
spaces. -/
theorem clean_text_counterexample :
    TextCleaner.clean_text "a@@b" = "a  b" ∧
    TextCleaner.noDoubleWs (TextCleaner.clean_text "a@@b").data = false ∧
    (TextCleaner.clean_text "a@@b").data.get? 1 = some ' ' ∧
    (TextCleaner.clean_text "a@@b").data.get? 2 = some ' ' := by
  refine ⟨by decide, by decide, by decide, by decide⟩

/-- Claim C5 as amended: the result of `clean_text` contains only word
characters, spaces and the kept punctuation, has no leading or trailing
whitespace, and is empty on empty input; runs of two or more whitespace
characters are excluded only for inputs whose characters all lie in the
allowed class (word, whitespace, kept punctuation), because characters
outside it are replaced by spaces after whitespace collapsing. -/
theorem clean_text_cleaning (s : String) :
    (∀ c ∈ (TextCleaner.clean_text s).data,
      TextCleaner.isWordChar c = true ∨ c = ' ' ∨ TextCleaner.isKeptPunct c = true) ∧
    TextCleaner.noWsEnds (TextCleaner.clean_text s).data = true ∧
    (s = "" → TextCleaner.clean_text s = "") ∧
    ((∀ c ∈ s.data, TextCleaner.isWordChar c = true ∨ c.isWhitespace = true ∨
        TextCleaner.isKeptPunct c = true) →
      TextCleaner.noDoubleWs (TextCleaner.clean_text s).data = true) := by
  have hdata : (TextCleaner.clean_text s).data = TextCleaner.clean_textL s.data := by
    rw [TextCleaner.clean_text]
  by_cases hs : s.data = []
  · rw [hdata, TextCleaner.clean_textL, if_pos hs]
    refine ⟨by simp, rfl, fun he => by subst he; decide, fun _ => rfl⟩
  · have hL : TextCleaner.clean_textL s.data =
        TextCleaner.pyStrip (TextCleaner.replaceSpecial (TextCleaner.collapseWs s.data)) := by
      rw [TextCleaner.clean_textL, if_neg hs]
    refine ⟨?_, ?_, ?_, ?_⟩
    · intro c hc
      rw [hdata, hL] at hc
      have hmem : c ∈ TextCleaner.replaceSpecial (TextCleaner.collapseWs s.data) :=
        (TextCleaner.pyStrip_infix _).subset hc
      exact TextCleaner.replaceSpecial_allowed s.data c hmem
    · rw [hdata, hL]
      exact TextCleaner.pyStrip_noWsEnds _
    · intro he
      exact absurd (by simp [he]) hs
    · intro hall
      rw [hdata, hL, TextCleaner.replaceSpecial_id_of_allowed s.data hall]
      exact TextCleaner.noDoubleWs_infix _ _ (TextCleaner.pyStrip_infix _)
        (TextCleaner.noDoubleWs_collapseWsAux s.data false)

/-- Witness for the amended claim C5 at concrete inputs. -/
theorem clean_text_cleaning_witness :
    (∀ c ∈ (TextCleaner.clean_text "a@@b").data,
      TextCleaner.isWordChar c = true ∨ c = ' ' ∨ TextCleaner.isKeptPunct c = true) ∧
    TextCleaner.noWsEnds (TextCleaner.clean_text "a@@b").data = true ∧
    TextCleaner.clean_text "" = "" ∧
    TextCleaner.noDoubleWs (TextCleaner.clean_text " a  b.c ").data = true :=
  ⟨(clean_text_cleaning "a@@b").1, (clean_text_cleaning "a@@b").2.1,
   (clean_text_cleaning "").2.2.1 rfl,
   (clean_text_cleaning " a  b.c ").2.2.2 (by decide)⟩

/-- Claim C1, evaluated at its own example: for the dependency set
`A:[], B:[], C:[A], D:[B], E:[C,D]` in list order A,B,C,D,E, the planner
returns the single group `[A,B,C,D,E]` — not the three groups
`[A,B],[C,D],[E]` the claim demands — because `executed` is mutated during
the scan, letting a task join the same group as its own dependency. -/
theorem create_execution_groups_example :
    TaskPlanner.create_execution_groups TaskPlanner.exTasks =
      [["A", "B", "C", "D", "E"]] ∧
    TaskPlanner.create_execution_groups TaskPlanner.exTasks ≠
      [["A", "B"], ["C", "D"], ["E"]] ∧
    (TaskPlanner.identify_parallel_groups TaskPlanner.exTasks).map
        (List.map TaskPlanner.TaskE.id) = [["A", "B", "C", "D", "E"]] :=
  ⟨by decide, by decide, by decide⟩
namespace TaskPlanner

theorem foldl_passStep_decomp :
    ∀ (ts : List TaskE) (g : List String) (e : Finset String),
      ∃ g', (ts.foldl passStep (g, e)).1 = g ++ g' ∧
        (ts.foldl passStep (g, e)).2 = e ∪ g'.toFinset ∧
        (∀ x ∈ g', x ∉ e) := by
  intro ts
  induction ts with
  | nil =>
    intro g e
    exact ⟨[], by simp, by simp, by simp⟩
  | cons t ts ih =>
    intro g e
    rw [List.foldl_cons]
    by_cases hc : t.id ∉ e ∧ (t.dependencies = ∅ ∨ t.dependencies ⊆ e)
    · have hstep : passStep (g, e) t = (g ++ [t.id], insert t.id e) := by
        rw [passStep, if_pos hc]
      rw [hstep]
      obtain ⟨g', h1, h2, h3⟩ := ih (g ++ [t.id]) (insert t.id e)
      refine ⟨t.id :: g', ?_, ?_, ?_⟩
      · rw [h1]; simp
      · rw [h2]
        rw [List.toFinset_cons, Finset.insert_union, Finset.union_insert]
      · intro x hx
        rcases List.mem_cons.mp hx with h | h
        · exact h ▸ hc.1
        · intro hxe
          exact h3 x h (Finset.mem_insert_of_mem hxe)
    · have hstep : passStep (g, e) t = (g, e) := by
        rw [passStep, if_neg hc]
      rw [hstep]
      exact ih g e

theorem onePass_decomp (tasks : List TaskE) (e : Finset String) :
    (onePass tasks e).2 = e ∪ (onePass tasks e).1.toFinset ∧
    (∀ x ∈ (onePass tasks e).1, x ∉ e) := by
  obtain ⟨g', h1, h2, h3⟩ := foldl_passStep_decomp tasks [] e
  rw [onePass]
  rw [List.nil_append] at h1
  refine ⟨?_, ?_⟩
  · rw [h2, h1]
  · rw [h1]; exact h3

theorem onePass_mono (tasks : List TaskE) (e : Finset String) :
    e ⊆ (onePass tasks e).2 := by
  rw [(onePass_decomp tasks e).1]
  exact Finset.subset_union_left

theorem onePass_card_lt (tasks : List TaskE) (e : Finset String)
    (h : (onePass tasks e).1 ≠ []) : e.card < (onePass tasks e).2.card := by
  obtain ⟨x, hx⟩ := List.exists_mem_of_ne_nil _ h
  have hxe : x ∉ e := (onePass_decomp tasks e).2 x hx
  have hxs : x ∈ (onePass tasks e).2 := by
    rw [(onePass_decomp tasks e).1]
    exact Finset.mem_union_right _ (List.mem_toFinset.mpr hx)
  exact Finset.card_lt_card (Finset.ssubset_iff_of_subset (onePass_mono tasks e)
    |>.mpr ⟨x, hxs, hxe⟩)

theorem foldl_passStep_inv (Q : Finset String → Prop) :
    ∀ (ts : List TaskE) (g : List String) (e : Finset String), Q e →
      (∀ e' (t : TaskE), Q e' → t ∈ ts → t.id ∉ e' →
        (t.dependencies = ∅ ∨ t.dependencies ⊆ e') → Q (insert t.id e')) →
      Q (ts.foldl passStep (g, e)).2 := by
  intro ts
  induction ts with
  | nil => intro g e hQ _; exact hQ
  | cons t ts ih =>
    intro g e hQ hcl
    rw [List.foldl_cons]
    by_cases hc : t.id ∉ e ∧ (t.dependencies = ∅ ∨ t.dependencies ⊆ e)
    · rw [passStep, if_pos hc]
      exact ih _ _ (hcl e t hQ (List.mem_cons_self _ _) hc.1 hc.2)
        (fun e' u hQ' hu => hcl e' u hQ' (List.mem_cons_of_mem _ hu))
    · rw [passStep, if_neg hc]
      exact ih _ _ hQ (fun e' u hQ' hu => hcl e' u hQ' (List.mem_cons_of_mem _ hu))

theorem onePass_inv (Q : Finset String → Prop) (tasks : List TaskE)
    (e : Finset String) (hQ : Q e)
    (hcl : ∀ e' (t : TaskE), Q e' → t ∈ tasks → t.id ∉ e' →
      (t.dependencies = ∅ ∨ t.dependencies ⊆ e') → Q (insert t.id e')) :
    Q (onePass tasks e).2 :=
  foldl_passStep_inv Q tasks [] e hQ hcl

theorem executedAfter_inv (Q : Finset String → Prop) (tasks : List TaskE)
    (h0 : Q ∅)
    (hcl : ∀ e' (t : TaskE), Q e' → t ∈ tasks → t.id ∉ e' →
      (t.dependencies = ∅ ∨ t.dependencies ⊆ e') → Q (insert t.id e')) :
    ∀ n, Q (executedAfter tasks n) := by
  intro n
  induction n with
  | zero => exact h0
  | succ n ih => exact onePass_inv Q tasks _ ih hcl

theorem executedAfter_subset_allIds (tasks : List TaskE) :
    ∀ n, executedAfter tasks n ⊆ allIds tasks := by
  refine executedAfter_inv (fun e => e ⊆ allIds tasks) tasks
    (Finset.empty_subset _) ?_
  intro e' t hQ ht _ _
  refine Finset.insert_subset ?_ hQ
  exact List.mem_toFinset.mpr (List.mem_map_of_mem TaskE.id ht)

end TaskPlanner
namespace TaskPlanner

theorem foldl_passStep_progress :
    ∀ (ts : List TaskE) (g : List String) (e : Finset String),
      (∃ t ∈ ts, t.id ∉ e ∧ (t.dependencies = ∅ ∨ t.dependencies ⊆ e)) →
      (ts.foldl passStep (g, e)).1 ≠ [] := by
  intro ts
  induction ts with
  | nil =>
    intro g e h
    simp at h
  | cons u ts ih =>
    intro g e h
    rw [List.foldl_cons]
    by_cases hc : u.id ∉ e ∧ (u.dependencies = ∅ ∨ u.dependencies ⊆ e)
    · rw [passStep, if_pos hc]
      obtain ⟨g', h1, _, _⟩ := foldl_passStep_decomp ts (g ++ [u.id]) (insert u.id e)
      rw [h1]
      simp
    · rw [passStep, if_neg hc]
      obtain ⟨t, ht, h2, h3⟩ := h
      rcases List.mem_cons.mp ht with h4 | h4
      · exact absurd ⟨h4 ▸ h2, h4 ▸ h3⟩ hc
      · exact ih g e ⟨t, h4, h2, h3⟩

theorem id_injective_of_distinct (tasks : List TaskE)
    (hdist : DistinctIds tasks) :
    ∀ u ∈ tasks, ∀ t ∈ tasks, u.id = t.id → u = t := by
  intro u hu t ht heq
  exact List.inj_on_of_nodup_map hdist hu ht heq

theorem card_allIds_le (tasks : List TaskE) :
    (allIds tasks).card ≤ tasks.length := by
  calc (allIds tasks).card ≤ (tasks.map TaskE.id).length :=
        List.toFinset_card_le _
    _ = tasks.length := List.length_map _ _

theorem card_allIds_eq (tasks : List TaskE) (hdist : DistinctIds tasks) :
    (allIds tasks).card = tasks.length := by
  rw [allIds, List.toFinset_card_of_nodup hdist, List.length_map]

theorem card_allIds_lt (tasks : List TaskE) (hdist : ¬ DistinctIds tasks) :
    (allIds tasks).card < tasks.length := by
  have hle := card_allIds_le tasks
  rcases lt_or_eq_of_le hle with h | h
  · exact h
  · exfalso
    apply hdist
    have hcard : (tasks.map TaskE.id).dedup.length = (tasks.map TaskE.id).length := by
      rw [allIds, List.card_toFinset] at h
      rw [h, List.length_map]
    have hsub : (tasks.map TaskE.id).dedup.Sublist (tasks.map TaskE.id) :=
      List.dedup_sublist _
    have := hsub.eq_of_length hcard
    unfold DistinctIds
    rw [← this]
    exact List.nodup_dedup _

theorem card_lt_of_missing (tasks : List TaskE) (e : Finset String)
    (he : e ⊆ allIds tasks) (z : String) (hz : z ∈ allIds tasks)
    (hze : z ∉ e) : e.card < tasks.length := by
  have h1 : e ⊆ (allIds tasks).erase z := Finset.subset_erase.mpr ⟨he, hze⟩
  calc e.card ≤ ((allIds tasks).erase z).card := Finset.card_le_card h1
    _ < (allIds tasks).card := Finset.card_erase_lt_of_mem hz
    _ ≤ tasks.length := card_allIds_le tasks

theorem exists_stall (tasks : List TaskE) :
    ∃ n, (onePass tasks (executedAfter tasks n)).1 = [] := by
  by_contra hno
  push_neg at hno
  have hgrow : ∀ n, n ≤ (executedAfter tasks n).card := by
    intro n
    induction n with
    | zero => exact Nat.zero_le _
    | succ n ih =>
      have := onePass_card_lt tasks (executedAfter tasks n) (hno n)
      calc n + 1 ≤ (executedAfter tasks n).card + 1 := by omega
        _ ≤ (executedAfter tasks (n + 1)).card := this
  have hbound := Finset.card_le_card (executedAfter_subset_allIds tasks
    ((allIds tasks).card + 1))
  have := hgrow ((allIds tasks).card + 1)
  omega

end TaskPlanner
namespace TaskPlanner

theorem allIds_mem_of_task {tasks : List TaskE} {t : TaskE} (ht : t ∈ tasks) :
    t.id ∈ allIds tasks :=
  List.mem_toFinset.mpr (List.mem_map_of_mem TaskE.id ht)

theorem task_of_mem_allIds {tasks : List TaskE} {d : String}
    (hd : d ∈ allIds tasks) : ∃ u ∈ tasks, u.id = d := by
  obtain ⟨u, hu, heq⟩ := List.mem_map.mp (List.mem_toFinset.mp hd)
  exact ⟨u, hu, heq⟩

theorem ghost_dep_never_executed (tasks : List TaskE)
    (hdist : DistinctIds tasks) (t0 : TaskE) (ht0 : t0 ∈ tasks)
    (d : String) (hd : d ∈ t0.dependencies) (hdn : d ∉ allIds tasks) :
    ∀ n, t0.id ∉ executedAfter tasks n := by
  have key : ∀ n, executedAfter tasks n ⊆ allIds tasks ∧
      t0.id ∉ executedAfter tasks n := by
    refine executedAfter_inv
      (fun e => e ⊆ allIds tasks ∧ t0.id ∉ e) tasks
      ⟨Finset.empty_subset _, Finset.not_mem_empty _⟩ ?_
    rintro e' t ⟨hsub, hmiss⟩ ht hnot hdeps
    refine ⟨Finset.insert_subset (allIds_mem_of_task ht) hsub, ?_⟩
    intro hmem
    rcases Finset.mem_insert.mp hmem with heq | hin
    · have hteq : t = t0 := id_injective_of_distinct tasks hdist t ht t0 ht0 heq.symm
      subst hteq
      rcases hdeps with h | h
      · rw [h] at hd
        exact absurd hd (Finset.not_mem_empty _)
      · exact hdn (hsub (h hd))
    · exact hmiss hin
  exact fun n => (key n).2

theorem cycle_never_executed (tasks : List TaskE) (hdist : DistinctIds tasks)
    (a : String) (hcyc : Relation.TransGen (depRel tasks) a a) :
    ∀ n, a ∉ executedAfter tasks n := by
  have key : ∀ n, ∀ x ∈ executedAfter tasks n,
      ¬ Relation.TransGen (depRel tasks) x x := by
    refine executedAfter_inv
      (fun e => ∀ x ∈ e, ¬ Relation.TransGen (depRel tasks) x x) tasks
      (by intro x hx; exact absurd hx (Finset.not_mem_empty _)) ?_
    intro e' t hQ ht hnot hdeps
    intro x hx
    rcases Finset.mem_insert.mp hx with heq | hin
    · subst heq
      intro hT
      cases hT with
      | single h =>
        obtain ⟨t', ht', hid, hdep⟩ := h
        have hteq : t' = t := id_injective_of_distinct tasks hdist t' ht' t ht hid
        rw [hteq] at hdep
        rcases hdeps with h2 | h2
        · rw [h2] at hdep
          exact absurd hdep (Finset.not_mem_empty _)
        · exact hnot (h2 hdep)
      | tail h1 h2 =>
        obtain ⟨t', ht', hid, hdep⟩ := h2
        have hteq : t' = t := id_injective_of_distinct tasks hdist t' ht' t ht hid
        rw [hteq] at hdep
        rcases hdeps with h3 | h3
        · rw [h3] at hdep
          exact absurd hdep (Finset.not_mem_empty _)
        · have hce : _ ∈ e' := h3 hdep
          exact hQ _ hce
            (Relation.TransGen.trans (Relation.TransGen.single ⟨t, ht, rfl, hdep⟩) h1)
    · exact hQ x hin
  intro n ha2
  exact key n a ha2 hcyc

theorem cycle_mem_allIds (tasks : List TaskE) (a : String)
    (hcyc : Relation.TransGen (depRel tasks) a a) : a ∈ allIds tasks := by
  cases hcyc with
  | single h =>
    obtain ⟨t, ht, hid, _⟩ := h
    exact hid ▸ allIds_mem_of_task ht
  | tail h1 h2 =>
    obtain ⟨t, ht, hid, _⟩ := h2
    exact hid ▸ allIds_mem_of_task ht

end TaskPlanner
namespace TaskPlanner

theorem exists_ready_aux (tasks : List TaskE) (hclosed : ClosedDeps tasks)
    (ha : Acyclic tasks) (e : Finset String) :
    ∀ (k : Nat) (x : String) (t : TaskE), t ∈ tasks → t.id = x → x ∉ e →
      ({y | Relation.ReflTransGen (depRel tasks) y x} ∩
        ↑(allIds tasks)).ncard ≤ k →
      ∃ u ∈ tasks, u.id ∉ e ∧ (u.dependencies = ∅ ∨ u.dependencies ⊆ e) := by
  intro k
  induction k with
  | zero =>
    intro x t ht hid hxe hcard
    exfalso
    have hxmem : x ∈ ({y | Relation.ReflTransGen (depRel tasks) y x} ∩
        ↑(allIds tasks)) :=
      ⟨Relation.ReflTransGen.refl, by
        simp only [Finset.coe_sort_coe, Finset.mem_coe]
        exact hid ▸ allIds_mem_of_task ht⟩
    have hfin : ({y | Relation.ReflTransGen (depRel tasks) y x} ∩
        ↑(allIds tasks)).Finite :=
      Set.Finite.subset (allIds tasks).finite_toSet Set.inter_subset_right
    have hpos : 0 < ({y | Relation.ReflTransGen (depRel tasks) y x} ∩
        ↑(allIds tasks)).ncard :=
      (Set.ncard_pos hfin).mpr ⟨x, hxmem⟩
    omega
  | succ k ih =>
    intro x t ht hid hxe hcard
    by_cases hdeps : t.dependencies ⊆ e
    · exact ⟨t, ht, hid ▸ hxe, Or.inr hdeps⟩
    · obtain ⟨d, hd, hde⟩ := Finset.not_subset.mp hdeps
      have hdall : d ∈ allIds tasks := hclosed t ht d hd
      obtain ⟨u, hu, hud⟩ := task_of_mem_allIds hdall
      have hedge : depRel tasks d x := ⟨t, ht, hid, hd⟩
      have hsubset : {y | Relation.ReflTransGen (depRel tasks) y d} ∩
          ↑(allIds tasks) ⊆
          {y | Relation.ReflTransGen (depRel tasks) y x} ∩ ↑(allIds tasks) := by
        rintro y ⟨hy, hyall⟩
        exact ⟨Relation.ReflTransGen.tail hy hedge, hyall⟩
      have hxnot : x ∉ {y | Relation.ReflTransGen (depRel tasks) y d} ∩
          ↑(allIds tasks) := by
        rintro ⟨hx, _⟩
        exact ha d (Relation.TransGen.trans_left (Relation.TransGen.single hedge) hx)
      have hxbig : x ∈ {y | Relation.ReflTransGen (depRel tasks) y x} ∩
          ↑(allIds tasks) :=
        ⟨Relation.ReflTransGen.refl, by
          simp only [Finset.coe_sort_coe, Finset.mem_coe]
          exact hid ▸ allIds_mem_of_task ht⟩
      have hfin : ({y | Relation.ReflTransGen (depRel tasks) y x} ∩
          ↑(allIds tasks)).Finite :=
        Set.Finite.subset (allIds tasks).finite_toSet Set.inter_subset_right
      have hss : {y | Relation.ReflTransGen (depRel tasks) y d} ∩
          ↑(allIds tasks) ⊂
          {y | Relation.ReflTransGen (depRel tasks) y x} ∩ ↑(allIds tasks) :=
        ⟨hsubset, fun hrev => hxnot (hrev hxbig)⟩
      have hlt := Set.ncard_lt_ncard hss hfin
      exact ih d u hu hud hde (by omega)

theorem exists_unexecuted (tasks : List TaskE) (hdist : DistinctIds tasks)
    (e : Finset String) (hcard : e.card < tasks.length) :
    ∃ t ∈ tasks, t.id ∉ e := by
  by_contra hno
  push_neg at hno
  have hsub : allIds tasks ⊆ e := by
    intro x hx
    obtain ⟨u, hu, hud⟩ := task_of_mem_allIds hx
    exact hud ▸ hno u hu
  have := Finset.card_le_card hsub
  rw [card_allIds_eq tasks hdist] at this
  omega

theorem onePass_progress (tasks : List TaskE) (hdist : DistinctIds tasks)
    (hclosed : ClosedDeps tasks) (ha : Acyclic tasks) (e : Finset String)
    (hcard : e.card < tasks.length) : (onePass tasks e).1 ≠ [] := by
  obtain ⟨t, ht, hte⟩ := exists_unexecuted tasks hdist e hcard
  obtain ⟨u, hu, h1, h2⟩ := exists_ready_aux tasks hclosed ha e
    (({y | Relation.ReflTransGen (depRel tasks) y t.id} ∩
      ↑(allIds tasks)).ncard) t.id t ht rfl hte le_rfl
  exact foldl_passStep_progress tasks [] e ⟨u, hu, h1, h2⟩

theorem terminates_under_pre (tasks : List TaskE) (hdist : DistinctIds tasks)
    (hclosed : ClosedDeps tasks) (ha : Acyclic tasks) :
    ∃ n, n ≤ tasks.length ∧ (executedAfter tasks n).card = tasks.length := by
  have hcardle : ∀ n, (executedAfter tasks n).card ≤ tasks.length := fun n =>
    le_trans (Finset.card_le_card (executedAfter_subset_allIds tasks n))
      (card_allIds_le tasks)
  have key : ∀ n, (∃ m, m ≤ n ∧ (executedAfter tasks m).card = tasks.length) ∨
      n ≤ (executedAfter tasks n).card := by
    intro n
    induction n with
    | zero => right; omega
    | succ n ih =>
      rcases ih with ⟨m, hm, hc⟩ | hge
      · left; exact ⟨m, by omega, hc⟩
      · by_cases hlt : (executedAfter tasks n).card < tasks.length
        · right
          have hne := onePass_progress tasks hdist hclosed ha
            (executedAfter tasks n) hlt
          have := onePass_card_lt tasks (executedAfter tasks n) hne
          have hstep : (executedAfter tasks (n + 1)).card =
              (onePass tasks (executedAfter tasks n)).2.card := rfl
          omega
        · left
          exact ⟨n, by omega, by have := hcardle n; omega⟩
  rcases key tasks.length with ⟨m, hm, hc⟩ | hge
  · exact ⟨m, hm, hc⟩
  · exact ⟨tasks.length, le_rfl, by have := hcardle tasks.length; omega⟩

end TaskPlanner
namespace TaskPlanner

theorem acyclic_of_no_deps (tasks : List TaskE)
    (h : ∀ t ∈ tasks, t.dependencies = ∅) : Acyclic tasks := by
  intro a hT
  have noedge : ∀ x y : String, ¬ depRel tasks x y := by
    rintro x y ⟨t, ht, hid, hdep⟩
    rw [h t ht] at hdep
    exact absurd hdep (Finset.not_mem_empty _)
  cases hT with
  | single h2 => exact noedge _ _ h2
  | tail h1 h2 => exact noedge _ _ h2

end TaskPlanner

/-- Claim C10 as amended: when the tasks additionally have pairwise distinct
ids, dependency closedness and acyclicity make every while-iteration from an
incomplete executed set contribute at least one task, so the loop guard
fails within as many iterations as there are tasks; when distinctness,
closedness or acyclicity fails, the guard `len(executed) < len(tasks)` stays
true forever and some iteration produces an empty group. -/
theorem create_execution_groups_termination (tasks : List TaskPlanner.TaskE) :
    ((TaskPlanner.DistinctIds tasks ∧ TaskPlanner.ClosedDeps tasks ∧
        TaskPlanner.Acyclic tasks) →
      (∀ n, (TaskPlanner.executedAfter tasks n).card < tasks.length →
        (TaskPlanner.onePass tasks (TaskPlanner.executedAfter tasks n)).1 ≠ []) ∧
      ∃ n, n ≤ tasks.length ∧
        (TaskPlanner.executedAfter tasks n).card = tasks.length) ∧
    (¬ (TaskPlanner.DistinctIds tasks ∧ TaskPlanner.ClosedDeps tasks ∧
        TaskPlanner.Acyclic tasks) →
      (∀ n, (TaskPlanner.executedAfter tasks n).card < tasks.length) ∧
      ∃ n, (TaskPlanner.onePass tasks (TaskPlanner.executedAfter tasks n)).1 = []) := by
  constructor
  · rintro ⟨hdist, hclosed, ha⟩
    exact ⟨fun n h => TaskPlanner.onePass_progress tasks hdist hclosed ha _ h,
      TaskPlanner.terminates_under_pre tasks hdist hclosed ha⟩
  · intro hnot
    refine ⟨?_, TaskPlanner.exists_stall tasks⟩
    by_cases hdist : TaskPlanner.DistinctIds tasks
    · by_cases hclosed : TaskPlanner.ClosedDeps tasks
      · have ha : ¬ TaskPlanner.Acyclic tasks :=
          fun ha => hnot ⟨hdist, hclosed, ha⟩
        obtain ⟨a, hcyc⟩ : ∃ a, Relation.TransGen (TaskPlanner.depRel tasks) a a := by
          unfold TaskPlanner.Acyclic at ha
          push_neg at ha
          exact ha
        intro n
        exact TaskPlanner.card_lt_of_missing tasks _
          (TaskPlanner.executedAfter_subset_allIds tasks n) a
          (TaskPlanner.cycle_mem_allIds tasks a hcyc)
          (TaskPlanner.cycle_never_executed tasks hdist a hcyc n)
      · obtain ⟨t0, ht0, d, hd, hdn⟩ :
            ∃ t0 ∈ tasks, ∃ d ∈ t0.dependencies, d ∉ TaskPlanner.allIds tasks := by
          unfold TaskPlanner.ClosedDeps at hclosed
          push_neg at hclosed
          exact hclosed
        intro n
        exact TaskPlanner.card_lt_of_missing tasks _
          (TaskPlanner.executedAfter_subset_allIds tasks n) t0.id
          (TaskPlanner.allIds_mem_of_task ht0)
          (TaskPlanner.ghost_dep_never_executed tasks hdist t0 ht0 d hd hdn n)
    · intro n
      calc (TaskPlanner.executedAfter tasks n).card
          ≤ (TaskPlanner.allIds tasks).card :=
            Finset.card_le_card (TaskPlanner.executedAfter_subset_allIds tasks n)
        _ < tasks.length := TaskPlanner.card_allIds_lt tasks hdist

/-- Counterexample to claim C10 as stated: two dependency-free tasks that
share the id "A" satisfy the stated precondition (dependencies refer only to
listed ids, and the graph is acyclic), yet the second while-iteration adds
no task and the loop guard stays true. -/
theorem create_execution_groups_termination_counterexample :
    TaskPlanner.ClosedDeps TaskPlanner.dupTasks ∧
    TaskPlanner.Acyclic TaskPlanner.dupTasks ∧
    (TaskPlanner.onePass TaskPlanner.dupTasks
      (TaskPlanner.executedAfter TaskPlanner.dupTasks 1)).1 = [] ∧
    (TaskPlanner.executedAfter TaskPlanner.dupTasks 1).card <
      TaskPlanner.dupTasks.length := by
  refine ⟨by unfold TaskPlanner.ClosedDeps; decide,
    TaskPlanner.acyclic_of_no_deps _ (by decide), by decide, by decide⟩

/-- Witness for the amended claim C10: a single dependency-free task for the
terminating branch and the duplicated-id pair for the diverging branch. -/
theorem create_execution_groups_termination_witness :
    ((∀ n, (TaskPlanner.executedAfter TaskPlanner.oneTask n).card <
        TaskPlanner.oneTask.length →
      (TaskPlanner.onePass TaskPlanner.oneTask
        (TaskPlanner.executedAfter TaskPlanner.oneTask n)).1 ≠ []) ∧
      ∃ n, n ≤ TaskPlanner.oneTask.length ∧
        (TaskPlanner.executedAfter TaskPlanner.oneTask n).card =
          TaskPlanner.oneTask.length) ∧
    ((∀ n, (TaskPlanner.executedAfter TaskPlanner.dupTasks n).card <
        TaskPlanner.dupTasks.length) ∧
      ∃ n, (TaskPlanner.onePass TaskPlanner.dupTasks
        (TaskPlanner.executedAfter TaskPlanner.dupTasks n)).1 = []) :=
  ⟨(create_execution_groups_termination TaskPlanner.oneTask).1
      ⟨by unfold TaskPlanner.DistinctIds; decide,
       by unfold TaskPlanner.ClosedDeps; decide,
       TaskPlanner.acyclic_of_no_deps _ (by decide)⟩,
   (create_execution_groups_termination TaskPlanner.dupTasks).2
      (fun h => absurd h.1 (by unfold TaskPlanner.DistinctIds; decide))⟩
